import Mathlib

/-!
Shallow embedding of the pickletrack repository (Rust) in Lean 4.

Source files embedded:
  * `src/bin/scrape/main.rs` — spatial enumeration of venues, tip filtering.
  * `src/bin/server/barlisting.rs` — bar catalog reload and proximity lookup.

Modelling conventions:
  * `f64` values that the algorithms manipulate with exact field arithmetic
    (midpoints, sums of utilities, comparisons) are modelled as `ℚ`.
  * Transcendental `f64` operations (the trigonometry inside the haversine
    `distance_latlong` and inside `offset_latlong`) have no executable exact
    counterpart, so those subterms are kept as explicit function parameters
    (`dist`, `cosf`, `pi`); every theorem quantifies over them.
  * Rust `Vec` used as a stack: push/extend append at the end, `pop` removes
    the last element; lists here follow the same convention.
  * Rust panics (`unwrap` on `None`, remainder by zero, `unreachable!`) are
    modelled as explicit constructors of result types.
  * Network calls are modelled by function parameters giving each call's
    result; the process-wide loops become fuel-indexed recursions.
-/

/-! ## Data model (scrape/main.rs) -/

/-- Rust `struct LatLong { latitude: f64, longitude: f64 }`. -/
structure LatLong where
  latitude : ℚ
  longitude : ℚ
deriving DecidableEq, Repr

/-- Rust `struct BoundingBox { sw: LatLong, ne: LatLong }`. -/
structure BoundingBox where
  sw : LatLong
  ne : LatLong
deriving DecidableEq, Repr

/-- The documented invariant of a bounding box:
`southwest.latitude <= northeast.latitude` and
`southwest.longitude <= northeast.longitude`. -/
def boxInv (b : BoundingBox) : Prop :=
  b.sw.latitude ≤ b.ne.latitude ∧ b.sw.longitude ≤ b.ne.longitude

instance (b : BoundingBox) : Decidable (boxInv b) := by
  unfold boxInv; infer_instance

/-- A coordinate point lies inside a bounding box (closed box). -/
def inBox (p : LatLong) (b : BoundingBox) : Prop :=
  b.sw.latitude ≤ p.latitude ∧ p.latitude ≤ b.ne.latitude ∧
  b.sw.longitude ≤ p.longitude ∧ p.longitude ≤ b.ne.longitude

instance (p : LatLong) (b : BoundingBox) : Decidable (inBox p b) := by
  unfold inBox; infer_instance

/-- Midpoint latitude used by `split_to_quadrants`. -/
def midLat (source : BoundingBox) : ℚ :=
  (source.sw.latitude + source.ne.latitude) / 2

/-- Midpoint longitude used by `split_to_quadrants`. -/
def midLon (source : BoundingBox) : ℚ :=
  (source.sw.longitude + source.ne.longitude) / 2

/-- Source `fn split_to_quadrants(source: &BoundingBox) -> [BoundingBox; 4]`.

Splits a bounding box at its midpoint latitude/longitude into the four
sub-boxes, in the source order: top left, top right, bottom left,
bottom right. -/
def split_to_quadrants (source : BoundingBox) : List BoundingBox :=
  [ -- Top left
    { sw := { latitude := midLat source, longitude := source.sw.longitude },
      ne := { latitude := source.ne.latitude, longitude := midLon source } },
    -- Top right
    { sw := { latitude := midLat source, longitude := midLon source },
      ne := { latitude := source.ne.latitude, longitude := source.ne.longitude } },
    -- Bottom left
    { sw := { latitude := source.sw.latitude, longitude := source.sw.longitude },
      ne := { latitude := midLat source, longitude := midLon source } },
    -- Bottom right
    { sw := { latitude := source.sw.latitude, longitude := midLon source },
      ne := { latitude := midLat source, longitude := source.ne.longitude } } ]

/-- Source `fn offset_latlong(source: &LatLong, dn: i32, de: i32) -> LatLong`.

The source computes
`d_lat = dn / 6378137` and `d_lon = de / (6378137 * cos(PI * lat / 180))`
and adds `d_lat * (180 / PI)` resp. `d_lon * (180 / PI)` to the origin.
`PI` and `cos` are transcendental `f64` values, so they are parameters here
(`pi`, `cosf`); the arithmetic shape is exactly the source's. -/
def offset_latlong (pi : ℚ) (cosf : ℚ → ℚ) (source : LatLong) (dn de : ℤ) : LatLong :=
  let d_lat : ℚ := (dn : ℚ) / 6378137
  let d_lon : ℚ := (de : ℚ) / (6378137 * cosf (pi * source.latitude / 180))
  { latitude := source.latitude + d_lat * (180 / pi),
    longitude := source.longitude + d_lon * (180 / pi) }

/-! ## Spatial enumeration loop (`get_bars`, scrape/main.rs lines 225-274) -/

/-- Source `const FOURSQUARE_MAX_VENUES_PER_QUERY: usize = 50`. -/
def FOURSQUARE_MAX_VENUES_PER_QUERY : Nat := 50

/-- The `while !unexplored.is_empty()` loop of `get_bars`, fuel-indexed
(the source loop has no termination bound; fuel `0` stops the model).

The stack is a `Vec`: the popped cell is the LAST element, and
`extend_from_slice(&split_to_quadrants(&next))` appends the four quadrants
at the end.  `fetch next` stands for the one Foursquare venue query for the
cell `next` (transport and parse failures of that query abort the whole run
in the source via `unwrap`/`assert!`, so a completed iteration always has a
venue list).  Venues are abstract (`α`).  The progress counters
(`total_large_handled`, `println!`) touch no data and are omitted. -/
def getBarsLoop (fetch : BoundingBox → List α) :
    Nat → List BoundingBox → List α → List α
  | 0, _, bars => bars
  | n + 1, unexplored, bars =>
    match unexplored.getLast? with
    | none => bars
    | some next =>
      if (fetch next).length = FOURSQUARE_MAX_VENUES_PER_QUERY then
        getBarsLoop fetch n (unexplored.dropLast ++ split_to_quadrants next) bars
      else
        getBarsLoop fetch n unexplored.dropLast (bars ++ fetch next)

/-! ## Tip filtering (`scrape_pickleback_bars`, scrape/main.rs lines 277-349) -/

/-- Source `const TIP_SEARCH_PHRASES: &[&str]`, in source order (the source lists
"pickle-back" twice). -/
def TIP_SEARCH_PHRASES : List String :=
  [ "pickle back", "pickleback", "pickel back", "pickelback",
    "pickle-back", "pickle-back", "pickle shot", "pickel shot",
    "pickle-shot", "pickel-shot", "shot of pickle", "shot of pickel",
    "shot pickle", "shot pickel", "pickle juice", "pickel juice",
    "pickle-juice", "pickel-juice" ]

/-- Substring containment on character lists: Rust `str::contains(needle)`.
True iff `needle` occurs contiguously inside `hay`. -/
def strHasSub (needle : List Char) : List Char → Bool
  | [] => List.isPrefixOf needle []
  | c :: t => List.isPrefixOf needle (c :: t) || strHasSub needle t

/-- Source test `tip.text.to_lowercase().contains(search_phrase)` for one phrase.
Rust `to_lowercase` is modelled by mapping `Char.toLower` over the text's
characters (the phrases and the case-variation the claims discuss are
ASCII). -/
def tipMatchesPhrase (text phrase : String) : Bool :=
  strHasSub phrase.data (text.data.map Char.toLower)

/-- The inner `for search_phrase in TIP_SEARCH_PHRASES` loop body applied to
one review `tip` with the accumulated `tips` vector: push `tip` when a phrase
matches and it is not already present. -/
def phraseFold (tips : List String) (tip : String) : List String :=
  TIP_SEARCH_PHRASES.foldl
    (fun tips phrase =>
      if tipMatchesPhrase tip phrase then
        if tips.contains tip then tips else tips ++ [tip]
      else tips)
    tips

/-- The `for tip in results.response.tips.items` loop of
`scrape_pickleback_bars`: collect matching review texts, original casing,
deduplicated by exact equality, in first-matched order. -/
def collectTips (reviews : List String) : List String :=
  reviews.foldl phraseFold []

/-- Rust `struct FoursquareBarLocation { lat, lng, state: Option<String> }`. -/
structure FoursquareBarLocation where
  lat : ℚ
  lng : ℚ
  state : Option String
deriving DecidableEq, Repr

/-- Rust `struct FoursquareBar { id, name, location }`. -/
structure FoursquareBar where
  id : String
  name : String
  location : FoursquareBarLocation
deriving DecidableEq, Repr

/-- Rust `struct Bar { id, name, lat, lng, tips }` — the persisted record.  The
same shape is declared in both `scrape/main.rs` (Serialize) and
`server/barlisting.rs` (Deserialize); one Lean structure models both. -/
structure Bar where
  id : String
  name : String
  lat : ℚ
  lng : ℚ
  tips : List String
deriving DecidableEq, Repr

/-- One attempt of a blocking HTTP call, as the source observes it:
`reqwest::get` either fails in transport (its `Result` is `Err`) or yields a
response with a success flag and a body. -/
inductive FetchResult (β : Type) where
  | transportError
  | response (success : Bool) (body : β)
deriving DecidableEq, Repr

/-- Outcome of the review-fetch retry loop for one venue. -/
inductive RetryOutcome (β : Type) where
  | panic
  | ok (body : β)
deriving DecidableEq, Repr

/-- The ten-minute delay, in seconds, slept between retries
(`Duration::from_secs(60 * 10)`).  Real time is outside the model; the
constant records the source value. -/
def RETRY_DELAY_SECONDS : Nat := 600

/-- The `loop { ... }` around the tips request in `scrape_pickleback_bars`
(lines 312-323).  `attempts i` is what the i-th `reqwest::get(&uri)` call
yields.  The source runs, per attempt:
`let mut response = reqwest::get(&uri).unwrap();` — so a transport error
panics at the `unwrap` — then breaks with the body on a success status and
otherwise sleeps ten minutes and retries.  Fuel bounds how many attempts the
model unfolds; `none` means the loop was still running after that many
attempts. -/
def tipFetchLoop (attempts : Nat → FetchResult β) (i : Nat) :
    Nat → Option (RetryOutcome β)
  | 0 => none
  | fuel + 1 =>
    match attempts i with
    | FetchResult.transportError => some RetryOutcome.panic
    | FetchResult.response true body => some (RetryOutcome.ok body)
    | FetchResult.response false _ => tipFetchLoop attempts (i + 1) fuel

/-- Outcome of `scrape_pickleback_bars`' per-venue processing loop. -/
inductive ScrapeResult where
  | panicked
  | ok (bars : List Bar)
deriving DecidableEq, Repr

/-- The `for bar in bars` loop of `scrape_pickleback_bars` (lines 288-346).

Per iteration the source first evaluates `processed % bars_100`; in Rust a
remainder by zero panics, which the model returns as `.panicked` when
`bars_100 = 0` (the `println!` itself has no data effect).  Then it
deduplicates by id against `visited`, drops venues whose `state` is absent
or not `"NY"`, fetches the venue's reviews (`fetchTips`, the body delivered
by the retry loop, here a per-venue function), filters them with
`collectTips`, and emits a `Bar` when at least one review matched. -/
def scrapeLoop (fetchTips : String → List String) (bars_100 : Nat) :
    List FoursquareBar → Nat → List String → List Bar → ScrapeResult
  | [], _, _, pickle_bars => ScrapeResult.ok pickle_bars
  | bar :: rest, processed, visited, pickle_bars =>
    if bars_100 = 0 then ScrapeResult.panicked
    else
      let processed := processed + 1
      if visited.contains bar.id then
        scrapeLoop fetchTips bars_100 rest processed visited pickle_bars
      else
        let visited := bar.id :: visited
        match bar.location.state with
        | none => scrapeLoop fetchTips bars_100 rest processed visited pickle_bars
        | some st =>
          if st ≠ "NY" then
            scrapeLoop fetchTips bars_100 rest processed visited pickle_bars
          else
            let tips := collectTips (fetchTips bar.id)
            if tips.length > 0 then
              scrapeLoop fetchTips bars_100 rest processed visited
                (pickle_bars ++
                  [{ id := bar.id, name := bar.name,
                     lat := bar.location.lat, lng := bar.location.lng,
                     tips := tips }])
            else
              scrapeLoop fetchTips bars_100 rest processed visited pickle_bars

/-- Function `scrape_pickleback_bars` after `get_bars` returned `bars`:
`let bars_100 = bars.len() / 100` (integer division) and then the per-venue
loop. -/
def scrapePicklebackBars (fetchTips : String → List String)
    (bars : List FoursquareBar) : ScrapeResult :=
  scrapeLoop fetchTips (bars.length / 100) bars 0 [] []

/-! ## Bar catalog (server/barlisting.rs) -/

/-- Source `const MAXIMUM_DITANCE_MILES: f64 = 3.0` (sic). -/
def MAXIMUM_DITANCE_MILES : ℚ := 3

/-- Source `fn utility_from_distance(distance_miles: f64) -> f64`:
`5000.0 / ((distance_miles.powf(4.0) * 40.0) + 0.96)`. -/
def utility_from_distance (distance_miles : ℚ) : ℚ :=
  5000 / ((distance_miles ^ 4 * 40) + 96 / 100)

/-- Method `reload_bars` (lines 64-83), with the two fallible stages explicit:
`File::open` (`openF`) and `serde_json::from_reader` (`parseF`).  `stored`
is the snapshot held in the `RwLock` before the call; the returned list is
the snapshot after it.  Either failure leaves the snapshot untouched (the
source only logs); success swaps in the parsed list wholesale. -/
def reload_bars {σ φ : Type} (openF : σ → Option φ)
    (parseF : φ → Option (List Bar)) (stored : List Bar) (src : σ) :
    List Bar :=
  match openF src with
  | none => stored
  | some file =>
    match parseF file with
    | none => stored
    | some bars => bars

/-- Rust `SliceRandom::choose(&mut rng)` on a slice: `None` on an empty slice,
otherwise a uniformly chosen element — modelled by an arbitrary draw
`n : Nat` reduced mod the length. -/
def sliceChoose (l : List α) (n : Nat) : Option α :=
  l.get? (n % l.length)

/-- Outcome of `locate_pickleback`, separating the source's two abnormal
exits from its `Option` return value: `panicked` is the
`bar.tips.choose(&mut rng).unwrap()` panic on an empty tips list, and
`unreachableHit` is the `unreachable!()` after the second pass. -/
inductive LocateResult where
  | noBar
  | panicked
  | unreachableHit
  | found (id name comment : String)
deriving DecidableEq, Repr

/-- Pass 1 of `locate_pickleback` (lines 96-104): fold over the snapshot,
skipping bars farther than `MAXIMUM_DITANCE_MILES` and summing
`utility_from_distance` over the rest.  `dist b` stands for
`distance_latlong(lat, lng, b.lat, b.lng)` (haversine — `f64` trigonometry,
kept abstract). -/
def passOneTotal (dist : Bar → ℚ) (bars : List Bar) : ℚ :=
  bars.foldl
    (fun total_utility bar =>
      if dist bar > MAXIMUM_DITANCE_MILES then total_utility
      else total_utility + utility_from_distance (dist bar))
    0

/-- Pass 2 of `locate_pickleback` (lines 112-128): sweep the same bars in
the same order, skipping out-of-range bars, returning the first bar whose
cumulative utility after adding its own exceeds `choice`; `none` means the
loop fell through to `unreachable!()`. -/
def passTwoSelect (dist : Bar → ℚ) (choice : ℚ) :
    List Bar → ℚ → Option Bar
  | [], _ => none
  | bar :: rest, sweep_utility =>
    if dist bar > MAXIMUM_DITANCE_MILES then
      passTwoSelect dist choice rest sweep_utility
    else
      if sweep_utility + utility_from_distance (dist bar) > choice then some bar
      else passTwoSelect dist choice rest
        (sweep_utility + utility_from_distance (dist bar))

/-- Method `locate_pickleback(&self, lat, lng)` (lines 92-131) against the snapshot
`bars`.  `dist` abstracts `distance_latlong(lat, lng, ·, ·)`; `choice`
models the draw `rng.gen_range(0.0, total_utility)` (the callers' theorems
constrain it to `[0, total_utility)` exactly when they rely on it); `tipDraw`
models the random index behind `tips.choose(&mut rng)`. -/
def locate_pickleback (dist : Bar → ℚ) (bars : List Bar) (choice : ℚ)
    (tipDraw : Nat) : LocateResult :=
  let total_utility := passOneTotal dist bars
  if total_utility = 0 then LocateResult.noBar
  else
    match passTwoSelect dist choice bars 0 with
    | none => LocateResult.unreachableHit
    | some bar =>
      match sliceChoose bar.tips tipDraw with
      | none => LocateResult.panicked
      | some tip => LocateResult.found bar.id bar.name tip

/-! ## Auxiliary definitions for the proofs -/

/-- Structural sum of `utility_from_distance` over the in-range bars, used
to reason about the `foldl` in `passOneTotal`. -/
def inRangeUtilitySum (dist : Bar → ℚ) : List Bar → ℚ
  | [] => 0
  | bar :: rest =>
    (if dist bar > MAXIMUM_DITANCE_MILES then 0
     else utility_from_distance (dist bar)) + inRangeUtilitySum dist rest

/-- Predicate for at least one search phrase matching one review text. -/
def tipMatchesAny (text : String) : Bool :=
  TIP_SEARCH_PHRASES.any (fun phrase => tipMatchesPhrase text phrase)

/-! ### Concrete sample data for the witness theorems -/

def demoBar : Bar :=
  { id := "b1", name := "Bar One", lat := 0, lng := 0, tips := ["a tip"] }

def demoBarNoTips : Bar :=
  { id := "b0", name := "No Tips", lat := 0, lng := 0, tips := [] }

def demoVenue : FoursquareBar :=
  { id := "v1", name := "Venue One",
    location := { lat := 0, lng := 0, state := some ("NY") } }

def demoAttempts : Nat → FetchResult Nat := fun i =>
  if i = 0 then FetchResult.response false 0 else FetchResult.response true 7

def demoReviewA : String := "Try the pickle back!"

def demoReviewB : String := "Best Pickleback in town"

def demoReviews : List String := [demoReviewA, demoReviewB]

/-! ## Theorems -/

/-- C8: offsetting by zero meters north and zero meters east returns the
origin unchanged, for every origin and for every value of the
transcendental parameters `pi` and `cosf` (including degenerate ones). -/
theorem offset_latlong_zero (pi : ℚ) (cosf : ℚ → ℚ) (source : LatLong) :
    offset_latlong pi cosf source 0 0 = source := by
  simp [offset_latlong]

/-- C2: one iteration of the enumeration loop on a popped cell `next`: when
the fetch returns exactly the cap (50) venues, none of them reaches the
output and exactly the four quadrants of `next` are pushed; otherwise all
returned venues are appended to the output and nothing is pushed. -/
theorem getBarsLoop_pop_step (fetch : BoundingBox → List α) (n : Nat)
    (stack : List BoundingBox) (next : BoundingBox) (bars : List α) :
    getBarsLoop fetch (n + 1) (stack ++ [next]) bars =
      if (fetch next).length = FOURSQUARE_MAX_VENUES_PER_QUERY then
        getBarsLoop fetch n (stack ++ split_to_quadrants next) bars
      else
        getBarsLoop fetch n stack (bars ++ fetch next) := by
  rw [getBarsLoop]
  rw [List.getLast?_concat]
  rw [List.dropLast_concat]

/-- C3 counterexample: a transport failure on the very first review-fetch
attempt makes the loop abort with a panic (the `unwrap` on the `reqwest`
result) instead of retrying — the fetch is not retried on transport
failures and such a failure does propagate as an abort. -/
theorem tipFetchLoop_transport_aborts :
    tipFetchLoop (fun _ => (FetchResult.transportError : FetchResult Nat)) 0 1 =
      some RetryOutcome.panic := rfl

/-- C3 (amended): per attempt, a non-success response is retried (after the
fixed ten-minute sleep, `RETRY_DELAY_SECONDS`), a success response ends the
loop with the body, and a transport failure aborts with a panic; when every
attempt yields a non-success response the loop never terminates, for any
amount of fuel — there is no maximum attempt count. -/
theorem tipFetchLoop_behavior {β : Type} (attempts : Nat → FetchResult β)
    (i fuel : Nat) :
    (∀ body, attempts i = FetchResult.response false body →
      tipFetchLoop attempts i (fuel + 1) = tipFetchLoop attempts (i + 1) fuel) ∧
    (∀ body, attempts i = FetchResult.response true body →
      tipFetchLoop attempts i (fuel + 1) = some (RetryOutcome.ok body)) ∧
    (attempts i = FetchResult.transportError →
      tipFetchLoop attempts i (fuel + 1) = some RetryOutcome.panic) ∧
    ((∀ j, ∃ body, attempts j = FetchResult.response false body) →
      tipFetchLoop attempts i fuel = none) := by
  refine ⟨?_, ?_, ?_, ?_⟩
  · intro body h
    rw [tipFetchLoop, h]
  · intro body h
    rw [tipFetchLoop, h]
  · intro h
    rw [tipFetchLoop, h]
  · intro h
    induction fuel generalizing i with
    | zero => rfl
    | succ n ih =>
      obtain ⟨body, hb⟩ := h i
      rw [tipFetchLoop, hb]
      exact ih (i + 1)

/-- C3 witness: with a concrete attempt stream whose first response is
non-success and whose second is a success carrying body `7`, the loop
retries once and then returns the body. -/
theorem tipFetchLoop_behavior_witness :
    tipFetchLoop demoAttempts 0 2 = tipFetchLoop demoAttempts 1 1 ∧
    tipFetchLoop demoAttempts 1 1 = some (RetryOutcome.ok 7) :=
  ⟨(tipFetchLoop_behavior demoAttempts 0 1).1 0 rfl,
   (tipFetchLoop_behavior demoAttempts 1 0).2.1 7 rfl⟩

/-- C4: `reload_bars` is atomic on failure: if opening the file fails, or
opening succeeds and parsing fails, the stored snapshot is returned
unchanged (and every subsequent `locate_pickleback` call observes exactly
the pre-reload snapshot); if parsing succeeds the parsed list replaces the
snapshot wholesale. -/
theorem reload_bars_atomic {σ φ : Type} (openF : σ → Option φ)
    (parseF : φ → Option (List Bar)) (stored : List Bar) (src : σ) :
    (openF src = none → reload_bars openF parseF stored src = stored) ∧
    (∀ file, openF src = some file → parseF file = none →
      reload_bars openF parseF stored src = stored) ∧
    (∀ file bars, openF src = some file → parseF file = some bars →
      reload_bars openF parseF stored src = bars) ∧
    ((reload_bars openF parseF stored src = stored ∨
        (∃ file bars, openF src = some file ∧ parseF file = some bars ∧
          reload_bars openF parseF stored src = bars)) ∧
      (openF src = none → ∀ dist choice tipDraw,
        locate_pickleback dist (reload_bars openF parseF stored src) choice
            tipDraw =
          locate_pickleback dist stored choice tipDraw)) := by
  refine ⟨?_, ?_, ?_, ?_, ?_⟩
  · intro h; simp [reload_bars, h]
  · intro file h hp; simp [reload_bars, h, hp]
  · intro file bars h hp; simp [reload_bars, h, hp]
  · cases ho : openF src with
    | none => exact Or.inl (by simp [reload_bars, ho])
    | some file =>
      cases hp : parseF file with
      | none => exact Or.inl (by simp [reload_bars, ho, hp])
      | some bars =>
        exact Or.inr ⟨file, bars, rfl, hp, by simp [reload_bars, ho, hp]⟩
  · intro h dist choice tipDraw
    simp [reload_bars, h]

/-- C4 witness: with a source whose open step fails, reloading over the
one-bar snapshot `[demoBar]` leaves it unchanged. -/
theorem reload_bars_atomic_witness :
    reload_bars (fun _ : Unit => (none : Option Unit))
        (fun _ => some []) [demoBar] () = [demoBar] :=
  (reload_bars_atomic (fun _ : Unit => (none : Option Unit))
    (fun _ => some []) [demoBar] ()).1 rfl

/-! ### Helper lemmas about the utility sums and the selection sweep -/

/-- The utility weight is strictly positive for every rational distance. -/
theorem utility_from_distance_pos (d : ℚ) : 0 < utility_from_distance d := by
  unfold utility_from_distance
  positivity

/-- The pass-1 `foldl` equals the accumulator plus the structural sum. -/
theorem passOneTotal_go (dist : Bar → ℚ) (bars : List Bar) :
    ∀ acc : ℚ,
      bars.foldl
        (fun total_utility bar =>
          if dist bar > MAXIMUM_DITANCE_MILES then total_utility
          else total_utility + utility_from_distance (dist bar)) acc =
      acc + inRangeUtilitySum dist bars := by
  induction bars with
  | nil => intro acc; simp [inRangeUtilitySum]
  | cons bar rest ih =>
    intro acc
    rw [List.foldl_cons, inRangeUtilitySum]
    by_cases h : dist bar > MAXIMUM_DITANCE_MILES
    · rw [if_pos h, if_pos h, ih, zero_add]
    · rw [if_neg h, if_neg h, ih]
      ring

/-- Lemma: `passOneTotal` is the sum of utilities over the in-range bars. -/
theorem passOneTotal_eq_sum (dist : Bar → ℚ) (bars : List Bar) :
    passOneTotal dist bars = inRangeUtilitySum dist bars := by
  rw [passOneTotal, passOneTotal_go, zero_add]

/-- The in-range utility sum is nonnegative. -/
theorem inRangeUtilitySum_nonneg (dist : Bar → ℚ) (bars : List Bar) :
    0 ≤ inRangeUtilitySum dist bars := by
  induction bars with
  | nil => simp [inRangeUtilitySum]
  | cons bar rest ih =>
    rw [inRangeUtilitySum]
    have := utility_from_distance_pos (dist bar)
    by_cases h : dist bar > MAXIMUM_DITANCE_MILES
    · rw [if_pos h]; linarith
    · rw [if_neg h]; linarith

/-- The in-range utility sum vanishes exactly when every bar is out of
range (utility weights are strictly positive). -/
theorem inRangeUtilitySum_eq_zero_iff (dist : Bar → ℚ) (bars : List Bar) :
    inRangeUtilitySum dist bars = 0 ↔
      ∀ b ∈ bars, dist b > MAXIMUM_DITANCE_MILES := by
  induction bars with
  | nil => simp [inRangeUtilitySum]
  | cons bar rest ih =>
    by_cases h : dist bar > MAXIMUM_DITANCE_MILES
    · rw [inRangeUtilitySum, if_pos h, zero_add, ih]
      constructor
      · intro hall b hb
        rcases List.mem_cons.mp hb with rfl | hb
        · exact h
        · exact hall b hb
      · intro hall b hb
        exact hall b (List.mem_cons_of_mem bar hb)
    · constructor
      · intro h0
        exfalso
        rw [inRangeUtilitySum, if_neg h] at h0
        have hu := utility_from_distance_pos (dist bar)
        have hs := inRangeUtilitySum_nonneg dist rest
        linarith
      · intro hall
        exact absurd (hall bar (List.mem_cons_self bar rest)) h

/-- The pass-2 sweep, started at any accumulated `sweep ≤ choice` with
`choice` below the remaining mass, stops at the first in-range bar whose
cumulative utility (after adding its own) exceeds `choice`. -/
theorem passTwoSelect_go (dist : Bar → ℚ) (choice : ℚ) :
    ∀ (bars : List Bar) (sweep : ℚ), sweep ≤ choice →
      choice < sweep + inRangeUtilitySum dist bars →
      ∃ pre bar post,
        bars = pre ++ bar :: post ∧
        ¬ dist bar > MAXIMUM_DITANCE_MILES ∧
        passTwoSelect dist choice bars sweep = some bar ∧
        sweep + inRangeUtilitySum dist pre ≤ choice ∧
        choice < sweep + inRangeUtilitySum dist pre +
          utility_from_distance (dist bar) := by
  intro bars
  induction bars with
  | nil =>
    intro sweep h1 h2
    exfalso
    rw [inRangeUtilitySum] at h2
    linarith
  | cons bar rest ih =>
    intro sweep h1 h2
    by_cases hd : dist bar > MAXIMUM_DITANCE_MILES
    · rw [inRangeUtilitySum, if_pos hd, zero_add] at h2
      obtain ⟨pre, b, post, heq, hb, hsel, hlo, hhi⟩ := ih sweep h1 h2
      refine ⟨bar :: pre, b, post, by rw [heq, List.cons_append], hb, ?_, ?_, ?_⟩
      · simp only [passTwoSelect]
        rw [if_pos hd]
        exact hsel
      · rw [inRangeUtilitySum, if_pos hd, zero_add]
        exact hlo
      · rw [inRangeUtilitySum, if_pos hd, zero_add]
        exact hhi
    · rw [inRangeUtilitySum, if_neg hd] at h2
      by_cases hc : sweep + utility_from_distance (dist bar) > choice
      · refine ⟨[], bar, rest, rfl, hd, ?_, ?_, ?_⟩
        · simp only [passTwoSelect]
          rw [if_neg hd, if_pos hc]
        · rw [inRangeUtilitySum]
          linarith
        · rw [inRangeUtilitySum]
          linarith
      · have hc' : sweep + utility_from_distance (dist bar) ≤ choice :=
          le_of_not_lt hc
        have h2' : choice <
            (sweep + utility_from_distance (dist bar)) +
              inRangeUtilitySum dist rest := by linarith
        obtain ⟨pre, b, post, heq, hb, hsel, hlo, hhi⟩ := ih _ hc' h2'
        refine ⟨bar :: pre, b, post, by rw [heq, List.cons_append], hb, ?_, ?_, ?_⟩
        · simp only [passTwoSelect]
          rw [if_neg hd, if_neg hc]
          exact hsel
        · rw [inRangeUtilitySum, if_neg hd]
          linarith
        · rw [inRangeUtilitySum, if_neg hd]
          linarith

/-- A bar returned by the pass-2 sweep is a member of the snapshot. -/
theorem passTwoSelect_mem (dist : Bar → ℚ) (choice : ℚ) :
    ∀ (bars : List Bar) (sweep : ℚ) (bar : Bar),
      passTwoSelect dist choice bars sweep = some bar → bar ∈ bars := by
  intro bars
  induction bars with
  | nil =>
    intro sweep bar h
    exact Option.noConfusion h
  | cons b rest ih =>
    intro sweep bar h
    simp only [passTwoSelect] at h
    by_cases hd : dist b > MAXIMUM_DITANCE_MILES
    · rw [if_pos hd] at h
      exact List.mem_cons_of_mem b (ih sweep bar h)
    · rw [if_neg hd] at h
      by_cases hc : sweep + utility_from_distance (dist b) > choice
      · rw [if_pos hc] at h
        rw [Option.some.injEq] at h
        rw [← h]
        exact List.mem_cons_self b rest
      · rw [if_neg hc] at h
        exact List.mem_cons_of_mem b (ih _ bar h)

/-- Lemma: `choose` on a nonempty slice always yields an element. -/
theorem sliceChoose_some (l : List α) (n : Nat) (h : l ≠ []) :
    ∃ x, sliceChoose l n = some x := by
  have hlen : 0 < l.length := List.length_pos.mpr h
  have hmod : n % l.length < l.length := Nat.mod_lt n hlen
  exact ⟨l.get ⟨n % l.length, hmod⟩, List.get?_eq_get hmod⟩

/-- C5: `locate_pickleback` returns nothing exactly when no bar of the
snapshot lies within `MAXIMUM_DITANCE_MILES` of the query point, which is
also exactly when the summed utility over in-range bars is zero.  `dist`
abstracts the haversine distance to the query point; the equivalence holds
for every distance function, every random draw and every tip draw. -/
theorem locate_pickleback_noBar_iff (dist : Bar → ℚ) (bars : List Bar)
    (choice : ℚ) (tipDraw : Nat) :
    (locate_pickleback dist bars choice tipDraw = LocateResult.noBar ↔
      ∀ b ∈ bars, dist b > MAXIMUM_DITANCE_MILES) ∧
    (locate_pickleback dist bars choice tipDraw = LocateResult.noBar ↔
      passOneTotal dist bars = 0) := by
  have key : locate_pickleback dist bars choice tipDraw = LocateResult.noBar ↔
      passOneTotal dist bars = 0 := by
    by_cases h : passOneTotal dist bars = 0
    · simp [locate_pickleback, h]
    · simp only [locate_pickleback, if_neg h]
      cases hsel : passTwoSelect dist choice bars 0 with
      | none => simp [h]
      | some bar =>
        cases htip : sliceChoose bar.tips tipDraw with
        | none => simp [htip, h]
        | some tip => simp [htip, h]
  refine ⟨?_, key⟩
  rw [key, passOneTotal_eq_sum]
  exact inRangeUtilitySum_eq_zero_iff dist bars

/-- C5 witness: with a distance function putting the only bar four miles
away, `locate_pickleback` returns nothing. -/
theorem locate_pickleback_noBar_iff_witness :
    locate_pickleback (fun _ => 4) [demoBar] 0 0 = LocateResult.noBar :=
  ((locate_pickleback_noBar_iff (fun _ => 4) [demoBar] 0 0).1).2
    (by
      intro b _
      norm_num [MAXIMUM_DITANCE_MILES])

/-- C6: whenever the random draw `choice` lies in `[0, totalUtility)`, the
second pass returns the first in-range bar (in snapshot order) whose
cumulative utility after adding its own exceeds `choice` (the existential
decomposition: the in-range bars of `pre` accumulate at most `choice` and
adding the selected bar's own utility exceeds it); the `unreachable!()`
after the loop is never executed; and when exactly one bar is in range it
is always the one selected. -/
theorem locate_pickleback_secondPass (dist : Bar → ℚ) (bars : List Bar)
    (choice : ℚ) (tipDraw : Nat) (h0 : 0 ≤ choice)
    (hlt : choice < passOneTotal dist bars) :
    (∃ pre bar post,
        bars = pre ++ bar :: post ∧
        ¬ dist bar > MAXIMUM_DITANCE_MILES ∧
        passTwoSelect dist choice bars 0 = some bar ∧
        passOneTotal dist pre ≤ choice ∧
        choice < passOneTotal dist pre + utility_from_distance (dist bar)) ∧
    locate_pickleback dist bars choice tipDraw ≠ LocateResult.unreachableHit ∧
    (∀ bar0, bar0 ∈ bars →
      (∀ b ∈ bars, ¬ dist b > MAXIMUM_DITANCE_MILES → b = bar0) →
      passTwoSelect dist choice bars 0 = some bar0) := by
  have hlt' : choice < 0 + inRangeUtilitySum dist bars := by
    rw [zero_add, ← passOneTotal_eq_sum]
    exact hlt
  obtain ⟨pre, bar, post, heq, hb, hsel, hlo, hhi⟩ :=
    passTwoSelect_go dist choice bars 0 h0 hlt'
  have hmem : bar ∈ bars := by
    rw [heq]
    exact List.mem_append_right pre (List.mem_cons_self bar post)
  refine ⟨⟨pre, bar, post, heq, hb, hsel, ?_, ?_⟩, ?_, ?_⟩
  · rw [passOneTotal_eq_sum]
    linarith
  · rw [passOneTotal_eq_sum]
    linarith
  · have htot : passOneTotal dist bars ≠ 0 := by
      intro hz
      rw [hz] at hlt
      linarith
    simp only [locate_pickleback, if_neg htot]
    rw [hsel]
    cases htip : sliceChoose bar.tips tipDraw with
    | none => simp [htip]
    | some tip => simp [htip]
  · intro bar0 _ hall
    have hbar : bar = bar0 := hall bar hmem hb
    rw [hsel, hbar]

/-- C6 witness: with one in-range bar and draw `0`, the second pass selects
that bar. -/
theorem locate_pickleback_secondPass_witness :
    passTwoSelect (fun _ => 1) 0 [demoBar] 0 = some demoBar :=
  (locate_pickleback_secondPass (fun _ => 1) [demoBar] 0 0 le_rfl
      (by norm_num [passOneTotal, utility_from_distance,
        MAXIMUM_DITANCE_MILES])).2.2
    demoBar (List.mem_cons_self demoBar [])
    (fun b hb _ => by simpa using hb)

/-- C10: the tip-selection `unwrap` in `locate_pickleback` panics exactly
on a selected bar with an empty tips list: if every bar of the snapshot has
a non-empty tips list the call never panics; if the pass-2 selection yields
a bar with empty tips (with the in-range total nonzero) the call panics;
and reload performs no validation — any successfully parsed list, including
one containing bars with empty tips, is stored verbatim. -/
theorem locate_pickleback_tips_panic (dist : Bar → ℚ) (bars : List Bar)
    (choice : ℚ) (tipDraw : Nat) :
    ((∀ b ∈ bars, b.tips ≠ []) →
      locate_pickleback dist bars choice tipDraw ≠ LocateResult.panicked) ∧
    (∀ bar, passOneTotal dist bars ≠ 0 →
      passTwoSelect dist choice bars 0 = some bar → bar.tips = [] →
      locate_pickleback dist bars choice tipDraw = LocateResult.panicked) ∧
    (∀ {σ φ : Type} (openF : σ → Option φ)
        (parseF : φ → Option (List Bar)) (stored : List Bar) (src : σ)
        (file : φ),
      openF src = some file → parseF file = some bars →
      reload_bars openF parseF stored src = bars) := by
  refine ⟨?_, ?_, ?_⟩
  · intro hall
    by_cases htot : passOneTotal dist bars = 0
    · simp [locate_pickleback, htot]
    · simp only [locate_pickleback, if_neg htot]
      cases hsel : passTwoSelect dist choice bars 0 with
      | none => simp
      | some bar =>
        have hmem := passTwoSelect_mem dist choice bars 0 bar hsel
        obtain ⟨x, hx⟩ := sliceChoose_some bar.tips tipDraw (hall bar hmem)
        simp [hx]
  · intro bar htot hsel htips
    simp only [locate_pickleback, if_neg htot]
    rw [hsel]
    simp [htips, sliceChoose]
  · intro σ φ openF parseF stored src file ho hp
    simp [reload_bars, ho, hp]

/-- C10 witness: a snapshot whose only bar has an empty tips list makes
`locate_pickleback` panic once that bar is in range and selected. -/
theorem locate_pickleback_tips_panic_witness :
    locate_pickleback (fun _ => 0) [demoBarNoTips] 0 0 =
      LocateResult.panicked :=
  (locate_pickleback_tips_panic (fun _ => 0) [demoBarNoTips] 0 0).2.1
    demoBarNoTips
    (by norm_num [passOneTotal, utility_from_distance,
      MAXIMUM_DITANCE_MILES])
    (by norm_num [passTwoSelect, utility_from_distance,
      MAXIMUM_DITANCE_MILES])
    rfl

/-! ### Helper lemma for the scrape progress loop -/

/-- With a nonzero `bars_100` the per-venue loop never reaches the
remainder-by-zero panic. -/
theorem scrapeLoop_ne_panicked (fetchTips : String → List String)
    (bars_100 : Nat) (h : bars_100 ≠ 0) :
    ∀ (rest : List FoursquareBar) (processed : Nat) (visited : List String)
      (acc : List Bar),
      scrapeLoop fetchTips bars_100 rest processed visited acc ≠
        ScrapeResult.panicked := by
  intro rest
  induction rest with
  | nil =>
    intro processed visited acc
    simp [scrapeLoop]
  | cons bar rest ih =>
    intro processed visited acc
    rw [scrapeLoop, if_neg h]
    split
    · exact ih _ _ _
    · split
      · exact ih _ _ _
      · split
        · exact ih _ _ _
        · dsimp only
          split
          · exact ih _ _ _
          · exact ih _ _ _

/-- C9 counterexample: with zero venues enumerated (`bars = []`, so fewer
than 100), the per-venue loop body never runs and `scrape_pickleback_bars`
returns normally instead of panicking — the claim's "whenever fewer than
100" fails at zero venues. -/
theorem scrapePicklebackBars_empty_ok :
    scrapePicklebackBars (fun _ => []) [] = ScrapeResult.ok [] ∧
    ([] : List FoursquareBar).length < 100 :=
  ⟨rfl, by decide⟩

/-- C9 (amended): `bars_100 = bars.len() / 100` is zero exactly when fewer
than 100 venues were enumerated, and the first loop iteration then
evaluates `processed % 0`, a remainder by zero, so the pipeline panics
whenever it enumerated at least one and fewer than 100 venues; with zero
venues the loop body never runs and it returns the empty output; with at
least 100 venues the remainder-by-zero panic is impossible. -/
theorem scrapePicklebackBars_progress_panic
    (fetchTips : String → List String) (bars : List FoursquareBar) :
    (bars ≠ [] → bars.length < 100 →
      scrapePicklebackBars fetchTips bars = ScrapeResult.panicked) ∧
    (100 ≤ bars.length →
      scrapePicklebackBars fetchTips bars ≠ ScrapeResult.panicked) ∧
    (bars = [] → scrapePicklebackBars fetchTips bars = ScrapeResult.ok []) := by
  refine ⟨?_, ?_, ?_⟩
  · intro hne hlt
    have hdiv : bars.length / 100 = 0 := Nat.div_eq_of_lt hlt
    cases bars with
    | nil => exact absurd rfl hne
    | cons bar rest =>
      rw [scrapePicklebackBars, hdiv, scrapeLoop, if_pos rfl]
  · intro hge
    have hdiv : bars.length / 100 ≠ 0 := by
      have : 0 < bars.length / 100 := Nat.div_pos hge (by norm_num)
      omega
    rw [scrapePicklebackBars]
    exact scrapeLoop_ne_panicked fetchTips _ hdiv bars 0 [] []
  · intro h
    rw [h]
    rfl

/-- C9 witness: a single enumerated venue (fewer than 100, more than zero)
makes the pipeline panic at the first progress computation. -/
theorem scrapePicklebackBars_progress_panic_witness :
    scrapePicklebackBars (fun _ => []) [demoVenue] = ScrapeResult.panicked :=
  (scrapePicklebackBars_progress_panic (fun _ => []) [demoVenue]).1
    (by simp) (by simp)

/-! ### Helper lemmas for the tip filter -/

/-- Appending an element makes `contains` find it. -/
theorem contains_concat_self (tips : List String) (tip : String) :
    (tips ++ [tip]).contains tip = true := by
  simp

/-- The inner phrase loop over an arbitrary phrase list appends `tip`
exactly when some phrase matches and `tip` is not already collected. -/
theorem phraseFoldGen_eq (tip : String) :
    ∀ (phrases tips : List String),
      phrases.foldl
        (fun tips phrase =>
          if tipMatchesPhrase tip phrase then
            if tips.contains tip then tips else tips ++ [tip]
          else tips)
        tips =
      (if phrases.any (fun phrase => tipMatchesPhrase tip phrase) &&
          !tips.contains tip then
        tips ++ [tip]
      else tips) := by
  intro phrases
  induction phrases with
  | nil => intro tips; simp
  | cons p ps ih =>
    intro tips
    simp only [List.foldl_cons]
    cases hm : tipMatchesPhrase tip p with
    | false =>
      rw [if_neg Bool.false_ne_true, ih, List.any_cons]
      simp only [hm, Bool.false_or]
    | true =>
      cases hc : tips.contains tip with
      | true =>
        rw [if_pos rfl, if_pos rfl, ih, hc, List.any_cons]
        simp [hm]
      | false =>
        rw [if_pos rfl, if_neg Bool.false_ne_true, ih, List.any_cons]
        simp [hm, hc, contains_concat_self]

/-- Lemma: `phraseFold` appends the review text exactly when some search phrase
matches and the text is not yet collected. -/
theorem phraseFold_eq (tips : List String) (tip : String) :
    phraseFold tips tip =
      (if tipMatchesAny tip && !tips.contains tip then tips ++ [tip]
      else tips) :=
  phraseFoldGen_eq tip TIP_SEARCH_PHRASES tips

/-- The outer review loop, from any duplicate-free accumulator: the
result extends the accumulator by a duplicate-free sublist of the reviews
consisting exactly of the matching texts not already collected. -/
theorem collectTips_go (reviews : List String) :
    ∀ tips : List String, tips.Nodup →
      ∃ s, reviews.foldl phraseFold tips = tips ++ s ∧
        s.Sublist reviews ∧
        (tips ++ s).Nodup ∧
        (∀ t ∈ s, tipMatchesAny t = true) ∧
        (∀ t ∈ reviews, tipMatchesAny t = true → t ∈ tips ++ s) := by
  induction reviews with
  | nil =>
    intro tips hnd
    exact ⟨[], by simp, List.nil_sublist [], by simpa using hnd,
      by simp, by simp⟩
  | cons tip rest ih =>
    intro tips hnd
    rw [List.foldl_cons, phraseFold_eq]
    by_cases hcond : (tipMatchesAny tip && !tips.contains tip) = true
    · rw [if_pos hcond]
      rw [Bool.and_eq_true] at hcond
      have hmatch : tipMatchesAny tip = true := hcond.1
      have hnotin : tip ∉ tips := by
        have h2 := hcond.2
        simp at h2
        exact h2
      have hnd' : (tips ++ [tip]).Nodup := by
        simp [List.nodup_append, hnd, hnotin]
      obtain ⟨s, hfold, hsub, hnds, hmat, hcov⟩ := ih (tips ++ [tip]) hnd'
      refine ⟨tip :: s, ?_, List.Sublist.cons₂ tip hsub, ?_, ?_, ?_⟩
      · rw [hfold, List.append_assoc, List.singleton_append]
      · rw [List.append_assoc, List.singleton_append] at hnds
        exact hnds
      · intro t ht
        rcases List.mem_cons.mp ht with rfl | ht
        · exact hmatch
        · exact hmat t ht
      · intro t ht hmt
        rcases List.mem_cons.mp ht with rfl | ht
        · exact List.mem_append_right tips (List.mem_cons_self t s)
        · have hmem := hcov t ht hmt
          rw [List.append_assoc, List.singleton_append] at hmem
          exact hmem
    · rw [if_neg hcond]
      obtain ⟨s, hfold, hsub, hnds, hmat, hcov⟩ := ih tips hnd
      refine ⟨s, hfold, List.Sublist.cons tip hsub, hnds, hmat, ?_⟩
      intro t ht hmt
      rcases List.mem_cons.mp ht with rfl | ht
      · have hin : t ∈ tips := by
          by_contra hno
          apply hcond
          rw [Bool.and_eq_true]
          refine ⟨hmt, ?_⟩
          simp [hno]
        exact List.mem_append_left s hin
      · exact hcov t ht hmt

/-- C7: a review text is retained by the tip filter iff its lowercased form
contains at least one search phrase as a substring; retained texts keep
their original casing (they are the review strings themselves), are
deduplicated by exact equality (`Nodup`), and appear in first-matched order
(a duplicate-free sublist of the review list is exactly the sequence of
first occurrences of its members); the per-venue loop emits a `Bar` for a
fresh in-state venue iff at least one review matched, carrying exactly the
collected tips. -/
theorem collectTips_spec (reviews : List String) :
    (∀ t, t ∈ collectTips reviews ↔
      t ∈ reviews ∧ tipMatchesAny t = true) ∧
    (collectTips reviews).Nodup ∧
    (collectTips reviews).Sublist reviews ∧
    (collectTips reviews ≠ [] ↔ ∃ t ∈ reviews, tipMatchesAny t = true) ∧
    (∀ (f : String → List String) (n : Nat) (rest : List FoursquareBar)
        (processed : Nat) (visited : List String) (acc : List Bar)
        (v : FoursquareBar),
      n ≠ 0 → visited.contains v.id = false →
      v.location.state = some ("NY") →
      scrapeLoop f n (v :: rest) processed visited acc =
        scrapeLoop f n rest (processed + 1) (v.id :: visited)
          (if collectTips (f v.id) = [] then acc
           else acc ++ [{ id := v.id, name := v.name,
                          lat := v.location.lat, lng := v.location.lng,
                          tips := collectTips (f v.id) }])) := by
  obtain ⟨s, hfold, hsub, hnd, hmat, hcov⟩ :=
    collectTips_go reviews [] List.nodup_nil
  have hs : collectTips reviews = s := by
    rw [collectTips, hfold, List.nil_append]
  refine ⟨?_, ?_, ?_, ?_, ?_⟩
  · intro t
    rw [hs]
    constructor
    · intro ht
      exact ⟨hsub.subset ht, hmat t ht⟩
    · intro ⟨hr, hm⟩
      have := hcov t hr hm
      rwa [List.nil_append] at this
  · rw [hs]
    rwa [List.nil_append] at hnd
  · rw [hs]
    exact hsub
  · rw [hs]
    constructor
    · intro hne
      obtain ⟨t, ht⟩ := List.exists_mem_of_ne_nil s hne
      exact ⟨t, hsub.subset ht, hmat t ht⟩
    · intro ⟨t, hr, hm⟩
      have := hcov t hr hm
      rw [List.nil_append] at this
      exact List.ne_nil_of_mem this
  · intro f n rest processed visited acc v hn hv hst
    rw [scrapeLoop, if_neg hn]
    simp only [hv, Bool.false_eq_true, if_false, hst]
    by_cases he : collectTips (f v.id) = []
    · rw [if_pos he]
      simp [he]
    · rw [if_neg he]
      have hlen : (collectTips (f v.id)).length > 0 :=
        List.length_pos.mpr he
      simp [hlen]

/-- C7 witness: two distinct reviews, one containing "pickle back" and one
containing "Pickleback" (case-insensitively matched), are both retained
with their exact original text, as two distinct entries. -/
theorem collectTips_spec_witness :
    demoReviewA ∈ collectTips demoReviews ∧
    demoReviewB ∈ collectTips demoReviews ∧
    demoReviewA ≠ demoReviewB ∧
    (collectTips demoReviews).Nodup :=
  ⟨((collectTips_spec demoReviews).1 demoReviewA).mpr
      ⟨by simp [demoReviews], by decide⟩,
   ((collectTips_spec demoReviews).1 demoReviewB).mpr
      ⟨by simp [demoReviews], by decide⟩,
   by decide,
   (collectTips_spec demoReviews).2.1⟩

/-- C1: for every bounding box satisfying the southwest/northeast invariant
the four quadrants returned by `split_to_quadrants` exactly tile it: each
quadrant satisfies the invariant, a point lies in the box iff it lies in
some quadrant, and a point common to two distinct quadrants lies on the
midpoint latitude or the midpoint longitude. -/
theorem split_to_quadrants_tiles (B : BoundingBox) (hB : boxInv B) :
    (∀ q ∈ split_to_quadrants B, boxInv q) ∧
    (∀ p, inBox p B ↔ ∃ q ∈ split_to_quadrants B, inBox p q) ∧
    (∀ q1 ∈ split_to_quadrants B, ∀ q2 ∈ split_to_quadrants B, q1 ≠ q2 →
      ∀ p, inBox p q1 → inBox p q2 →
        p.latitude = midLat B ∨ p.longitude = midLon B) := by
  obtain ⟨hlat, hlon⟩ := hB
  have hm1 : B.sw.latitude ≤ midLat B := by rw [midLat]; linarith
  have hm2 : midLat B ≤ B.ne.latitude := by rw [midLat]; linarith
  have hm3 : B.sw.longitude ≤ midLon B := by rw [midLon]; linarith
  have hm4 : midLon B ≤ B.ne.longitude := by rw [midLon]; linarith
  refine ⟨?_, ?_, ?_⟩
  · intro q hq
    simp only [split_to_quadrants, List.mem_cons, List.not_mem_nil,
      or_false] at hq
    rcases hq with rfl | rfl | rfl | rfl
    · exact ⟨hm2, hm3⟩
    · exact ⟨hm2, hm4⟩
    · exact ⟨hm1, hm3⟩
    · exact ⟨hm1, hm4⟩
  · intro p
    constructor
    · intro hp
      obtain ⟨h1, h2, h3, h4⟩ := hp
      simp only [split_to_quadrants, List.mem_cons, List.not_mem_nil,
        or_false, exists_eq_or_imp, exists_eq_left, inBox]
      rcases le_total p.latitude (midLat B) with hl | hl <;>
        rcases le_total p.longitude (midLon B) with ho | ho
      · exact Or.inr (Or.inr (Or.inl ⟨h1, hl, h3, ho⟩))
      · exact Or.inr (Or.inr (Or.inr ⟨h1, hl, ho, h4⟩))
      · exact Or.inl ⟨hl, h2, h3, ho⟩
      · exact Or.inr (Or.inl ⟨hl, h2, ho, h4⟩)
    · intro hex
      obtain ⟨q, hq, hpq⟩ := hex
      simp only [split_to_quadrants, List.mem_cons, List.not_mem_nil,
        or_false] at hq
      rcases hq with rfl | rfl | rfl | rfl <;>
        simp only [inBox] at hpq ⊢ <;>
        obtain ⟨a, b, c, d⟩ := hpq
      · exact ⟨by linarith, b, c, by linarith⟩
      · exact ⟨by linarith, b, by linarith, d⟩
      · exact ⟨a, by linarith, c, by linarith⟩
      · exact ⟨a, by linarith, by linarith, d⟩
  · intro q1 hq1 q2 hq2 hne p hp1 hp2
    simp only [split_to_quadrants, List.mem_cons, List.not_mem_nil,
      or_false] at hq1 hq2
    rcases hq1 with rfl | rfl | rfl | rfl <;>
      rcases hq2 with rfl | rfl | rfl | rfl <;>
      simp only [inBox] at hp1 hp2 <;>
      obtain ⟨a1, b1, c1, d1⟩ := hp1 <;>
      obtain ⟨a2, b2, c2, d2⟩ := hp2 <;>
      first
        | exact absurd rfl hne
        | (left; linarith)
        | (right; linarith)

/-- C1 witness: the tiling equivalence applied to the concrete unit-style
box from `(0,0)` to `(2,2)` at the interior point `(1,1)`. -/
theorem split_to_quadrants_tiles_witness :
    inBox ⟨1, 1⟩ ⟨⟨0, 0⟩, ⟨2, 2⟩⟩ ↔
      ∃ q ∈ split_to_quadrants ⟨⟨0, 0⟩, ⟨2, 2⟩⟩, inBox ⟨1, 1⟩ q :=
  (split_to_quadrants_tiles ⟨⟨0, 0⟩, ⟨2, 2⟩⟩ (by decide)).2.1 ⟨1, 1⟩
